import Mathlib

/-!
Verification of the pyqsp excerpt (`pyqsp/phases.py`, `pyqsp/response.py`).

The development shallowly embeds the two source files:
* floating-point arithmetic on phase angles and matrices is modelled by exact
  arithmetic (`ℚ` for the Chebyshev coefficient sweep and the erf-step tables,
  `ℝ`/`ℂ` for trigonometric phase generation and the response engine);
* python exceptions are modelled by `Except`;
* the mutable `self.avec`/`self.bvec` fields of `FPSearch` are modelled by
  explicit state passing (`FPState`).
-/

/-! ### Chebyshev basis converter (`phases.py`, `poly2chebyfn`) -/

/-- Evaluation of a polynomial given by its low-to-high coefficient list. -/
def polyEval (p : List ℚ) (x : ℚ) : ℚ :=
  p.foldr (fun c acc => c + x * acc) 0

/-- Coefficient-wise subtraction of polynomials as lists (low-to-high),
padding the shorter list with zeros. -/
def psub : List ℚ → List ℚ → List ℚ
  | p, [] => p
  | [], q => q.map (fun c => -c)
  | a :: p, b :: q => (a - b) :: psub p q

/-- Low-to-high coefficient list of the Chebyshev polynomial `T_n` of the
first kind, by the recurrence `T_0 = 1`, `T_1 = x`,
`T_{n+2} = 2x T_{n+1} - T_n`.  This embeds `scipy.special.chebyt(n).coef`
after the source's `list(reversed(...))` (the scipy table is high-to-low,
the source reverses it to low-to-high). -/
def chebTCoeffs : ℕ → List ℚ
  | 0 => [1]
  | 1 => [0, 1]
  | n + 2 => psub (0 :: (chebTCoeffs (n + 1)).map (fun c => 2 * c)) (chebTCoeffs n)

/-- Low-to-high coefficient list of the Chebyshev polynomial `U_n` of the
second kind, by the recurrence `U_0 = 1`, `U_1 = 2x`,
`U_{n+2} = 2x U_{n+1} - U_n`; embeds `scipy.special.chebyu(n).coef`
reversed to low-to-high. -/
def chebUCoeffs : ℕ → List ℚ
  | 0 => [1]
  | 1 => [0, 2]
  | n + 2 => psub (0 :: (chebUCoeffs (n + 1)).map (fun c => 2 * c)) (chebUCoeffs n)

/-- Kind tag of `poly2chebyfn`: Chebyshev polynomials of the first (`"T"`)
or second (`"U"`) kind. -/
inductive ChebKind
  | T
  | U

/-- The source's `cfunc`: low-to-high Chebyshev coefficient list of the
requested kind. -/
def cfuncOf : ChebKind → ℕ → List ℚ
  | ChebKind.T => chebTCoeffs
  | ChebKind.U => chebUCoeffs

/-- Last element of a coefficient list, as the source accesses it:
`poly_term[len(poly_term)-1]` (the top-order Chebyshev coefficient). -/
def leadCoef (p : List ℚ) : ℚ :=
  p.getD (p.length - 1) 0

/-- One elimination coefficient of the sweep:
`r / poly_term[len(poly_term)-1]` with `r = P[l]`. -/
def chebCoefAt (cf : ℕ → List ℚ) (P : List ℚ) (l : ℕ) : ℚ :=
  P.getD l 0 / leadCoef (cf l)

/-- One residual update of the sweep:
`P - (r / lead) * np.array(cfunc(l) + [0.0 for _ in range(l, deg)])`. -/
def reduceP (cf : ℕ → List ℚ) (deg : ℕ) (P : List ℚ) (l : ℕ) : List ℚ :=
  List.zipWith (fun p t => p - chebCoefAt cf P l * t)
    P (cf l ++ List.replicate (deg - l) 0)

/-- The elimination loop `for l in range(deg, -1, -1)` of `poly2chebyfn`,
producing the coefficients high-degree-first (the order they are appended
to `C` in the source). -/
def chebElim (cf : ℕ → List ℚ) (deg : ℕ) : ℕ → List ℚ → List ℚ
  | 0, P => [chebCoefAt cf P 0]
  | l + 1, P => chebCoefAt cf P (l + 1) :: chebElim cf deg l (reduceP cf deg P (l + 1))

/-- Embedding of `poly2chebyfn(pcoefs, kind)`: convert a power-basis
coefficient list (index = power, low-to-high) to Chebyshev-basis
coefficients, returned low-degree-first (`list(reversed(C))`).  For an
empty input the python loop `range(len(P)-1, -1, -1)` is empty and the
function returns `[]`. -/
def poly2chebyfn (pcoefs : List ℚ) (kind : ChebKind) : List ℚ :=
  match pcoefs with
  | [] => []
  | _ :: _ =>
    (chebElim (cfuncOf kind) (pcoefs.length - 1) (pcoefs.length - 1) pcoefs).reverse

/-- Reconstruction sum `Σ_l c_l · ChebKind_{k+l}(x)` for a low-degree-first
coefficient list `c` whose first entry has degree `k`. -/
def chebSum (cf : ℕ → List ℚ) (x : ℚ) : List ℚ → ℕ → ℚ
  | [], _ => 0
  | c :: rest, k => c * polyEval (cf k) x + chebSum cf x rest (k + 1)

/-! ### Fixed-point search phase generator (`phases.py`, `FPSearch`) -/

/-- Embedding of `np.arctan2 y x` (`atan2`), via the complex argument of
`x + i y`. -/
noncomputable def atan2 (y x : ℝ) : ℝ :=
  Complex.arg ⟨x, y⟩

/-- Embedding of `np.arccosh` on its real domain `x ≥ 1`:
`arccosh x = log (x + sqrt (x^2 - 1))`. -/
noncomputable def arccosh (x : ℝ) : ℝ :=
  Real.log (x + Real.sqrt (x ^ 2 - 1))

/-- Resolution of `gamma` in `FPSearch.generate`: if `gamma` is `None` it is
derived from `delta` (itself defaulting to `0.1`) as
`1 / cosh((1/L) * arccosh(1/delta))` with `L = 2d+1`. -/
noncomputable def FPSearch.gammaOf (d : ℕ) (delta? gamma? : Option ℝ) : ℝ :=
  match gamma? with
  | some g => g
  | none =>
    1 / Real.cosh ((1 / (2 * (d : ℝ) + 1)) * arccosh (1 / delta?.getD 0.1))

/-- The vector `avec = 2 * np.arctan2(1, np.tan(2*pi*kvec/L) * sg)` of
`FPSearch.generate`, with `kvec = [1..d]`, `L = 2d+1` and
`sg = sqrt(1 - gamma^2)`; index `i` of the list holds the entry for
`k = i+1`. -/
noncomputable def FPSearch.avec (d : ℕ) (γ : ℝ) : List ℝ :=
  (List.range d).map (fun i : ℕ =>
    2 * atan2 1 (Real.tan (2 * Real.pi * ((i : ℕ) + 1 : ℝ) / (2 * (d : ℝ) + 1)) *
      Real.sqrt (1 - γ ^ 2)))

/-- The vector `bvec = -avec[::-1]` of `FPSearch.generate`. -/
noncomputable def FPSearch.bvec (d : ℕ) (γ : ℝ) : List ℝ :=
  (FPSearch.avec d γ).reverse.map (fun a => -a)

/-- Mutable instance state of an `FPSearch` generator: the `self.avec` and
`self.bvec` diagnostic fields. -/
structure FPState where
  avec : List ℝ
  bvec : List ℝ

/-- Embedding of `FPSearch.generate(d, delta, gamma, return_alpha)` as a
state transition on the instance fields.  When `return_alpha` is true the
source returns `avec` before the assignments `self.avec = avec` and
`self.bvec = bvec`, so the instance state is unchanged; otherwise the state
is overwritten and the interleaved `phivec` of length `2d`
(`phivec[2k] = -avec[d-k-1]/2`, `phivec[2k+1] = bvec[d-k-1]/2`) is
returned. -/
noncomputable def FPSearch.generate (st : FPState) (d : ℕ)
    (delta? gamma? : Option ℝ) (return_alpha : Bool) : FPState × List ℝ :=
  let γ := FPSearch.gammaOf d delta? gamma?
  let av := FPSearch.avec d γ
  if return_alpha then
    (st, av)
  else
    let bv := FPSearch.bvec d γ
    (⟨av, bv⟩,
      (List.range d).flatMap (fun k =>
        [(-(av.getD (d - k - 1) 0)) / 2, bv.getD (d - k - 1) 0 / 2]))

/-! ### erf-step phase generator (`phases.py`, `erf_step`) -/

/-- Error raised by `erf_step.generate` for an unsupported `n`. -/
inductive PhasesError
  | unsupportedTableLookup

/-- The literal phase table `phi_n7_erf` (degree-7 approximation to
`erf(1.5 x)`), with the decimal literals of the source read exactly. -/
def phi_n7_erf : List ℚ :=
  [1.58019, 0.00172821, 0.251897, -0.834542, -0.834542, 0.251897,
   0.00172821, 0.00939863]

/-- The literal phase table `phi_n23_erf` (degree-23 approximation to
`erf(2 x)`), with the decimal literals of the source read exactly. -/
def phi_n23_erf : List ℚ :=
  [1.5708, 2.87883e-8, 5.83909e-7, 1.84144e-6, 0.0000209995,
   -0.0000120126, 0.000564903, -0.0022922, 0.0150024,
   -0.064666, 0.263754, -0.926685, -0.926912, 0.263756,
   -0.0645576, 0.014932, -0.00225885, 0.000553565,
   -8.29284e-6, 0.0000200459, 2.09476e-6, 5.3026e-7,
   4.38578e-8, 3.66401e-9]

/-- Embedding of `erf_step.generate(n)`: a pure table lookup, raising for
any `n` other than `7` or `23`. -/
def erf_step.generate (n : ℤ) : Except PhasesError (List ℚ) :=
  if n = 7 then Except.ok phi_n7_erf
  else if n = 23 then Except.ok phi_n23_erf
  else Except.error PhasesError.unsupportedTableLookup

/-! ### Extraction and Sqrt sequences (`phases.py`) -/

/-- Embedding of `ExtractionSequence.generate(n)`.  The collaborators
`PolyExtraction().generate` (from `pyqsp.poly`) and
`QuantumSignalProcessingPhases` (from `pyqsp.angle_sequence`) are not part
of the excerpt; they are abstracted as parameters `polyExtraction` and
`qspPhases`, to which the method merely threads `n` and the literal tags
`"Q"` and `"z"`. -/
def ExtractionSequence.generate {Q Φ : Type} (polyExtraction : ℕ → Q)
    (qspPhases : Q → String → String → Φ) (n : ℕ) : Φ :=
  qspPhases (polyExtraction n) "Q" "z"

/-- Embedding of `SqrtSequence.generate(n)`, whose body in the source is
identical to `ExtractionSequence.generate(n)`; the same collaborators are
abstracted the same way. -/
def SqrtSequence.generate {Q Φ : Type} (polyExtraction : ℕ → Q)
    (qspPhases : Q → String → String → Φ) (n : ℕ) : Φ :=
  qspPhases (polyExtraction n) "Q" "z"

/-! ### Response engine (`response.py`, `ComputeQSPResponse`) -/

/-- Errors `ComputeQSPResponse` can raise: the two `ResponseError` cases of
the source and the python `IndexError` raised by `pmats[0]` on an empty
phase list. -/
inductive RespErr
  | invalidSignalOperator (s : String)
  | invalidMeasurement (m : Option String)
  | indexError

/-- The result dictionary of `ComputeQSPResponse`. -/
structure QSPResponse where
  adat : List ℝ
  pdat : List ℂ
  model : String × Option String
  phiset : List ℝ

/-- Signal operator for the `Wx` convention:
`[[a, i sqrt(1-a^2)], [i sqrt(1-a^2), a]]`. -/
noncomputable def sigOpWx (a : ℝ) : Matrix (Fin 2) (Fin 2) ℂ :=
  !![(a : ℂ), Complex.I * (Real.sqrt (1 - a ^ 2) : ℝ);
     Complex.I * (Real.sqrt (1 - a ^ 2) : ℝ), (a : ℂ)]

/-- Phase operator for the `Wx` convention: `diag(e^{iφ}, e^{-iφ})`. -/
noncomputable def qspOpWx (φ : ℝ) : Matrix (Fin 2) (Fin 2) ℂ :=
  !![Complex.exp (Complex.I * φ), 0;
     0, Complex.exp (-(Complex.I * φ))]

/-- The basis-change matrix `H = [[1,1],[1,-1]] / sqrt 2` of the `Wz`
branch. -/
noncomputable def Hmat : Matrix (Fin 2) (Fin 2) ℂ :=
  ((Real.sqrt 2 : ℝ) : ℂ)⁻¹ • !![1, 1; 1, -1]

/-- Signal operator for the `Wz` convention: the `Wx` one conjugated by
`H`. -/
noncomputable def sigOpWz (a : ℝ) : Matrix (Fin 2) (Fin 2) ℂ :=
  Hmat * sigOpWx a * Hmat

/-- Phase operator for the `Wz` convention: the `Wx` one conjugated by
`H`. -/
noncomputable def qspOpWz (φ : ℝ) : Matrix (Fin 2) (Fin 2) ℂ :=
  Hmat * qspOpWx φ * Hmat

/-- Measurement state for `measurement = "x"`: the column `[1,1]/sqrt 2`. -/
noncomputable def pstateX : Matrix (Fin 2) (Fin 1) ℂ :=
  ((Real.sqrt 2 : ℝ) : ℂ)⁻¹ • !![1; 1]

/-- Measurement state for `measurement = "z"`: the column `[1,0]`. -/
noncomputable def pstateZ : Matrix (Fin 2) (Fin 1) ℂ :=
  !![1; 0]

/-- Selection of `(sig_op, qsp_op)` from `signal_operator`; `none` encodes
the `else: raise ResponseError` branch. -/
noncomputable def opsOf (s : String) :
    Option ((ℝ → Matrix (Fin 2) (Fin 2) ℂ) × (ℝ → Matrix (Fin 2) (Fin 2) ℂ)) :=
  if s = "Wx" then some (sigOpWx, qspOpWx)
  else if s = "Wz" then some (sigOpWz, qspOpWz)
  else none

/-- The `measurement` defaulting of the source: a `None` measurement becomes
the basis native to the signal operator (`"x"` for `Wx`, `"z"` for `Wz`) and
otherwise stays `None`. -/
def resolveMeas (s : String) (m : Option String) : Option String :=
  match m with
  | none =>
    if s = "Wx" then some "x"
    else if s = "Wz" then some "z"
    else none
  | some m => some m

/-- Selection of `p_state` from the (resolved) measurement; `none` encodes
the `else: raise ResponseError` branch. -/
noncomputable def pstateOf (m : Option String) : Option (Matrix (Fin 2) (Fin 1) ℂ) :=
  if m = some "x" then some pstateX
  else if m = some "z" then some pstateZ
  else none

/-- The per-sample response of the source's inner loop: `U = pmats[0]`, then
`U = U @ W @ pm` over `pmats[1:]`, and `(p_state.T @ U @ p_state)[0, 0]`
(plain transpose).  An empty `pmats` makes `pmats[0]` raise `IndexError`. -/
noncomputable def responseAt (W : Matrix (Fin 2) (Fin 2) ℂ)
    (pmats : List (Matrix (Fin 2) (Fin 2) ℂ)) (pstate : Matrix (Fin 2) (Fin 1) ℂ) :
    Except RespErr ℂ :=
  match pmats with
  | [] => Except.error RespErr.indexError
  | p0 :: rest =>
    Except.ok ((pstate.transpose * (rest.foldl (fun U pm => U * W * pm) p0) * pstate) 0 0)

/-- Embedding of `ComputeQSPResponse(adat, phiset, signal_operator,
measurement)`.  Control flow mirrors the source: measurement defaulting,
then the signal-operator dispatch (raising `ResponseError` on an unknown
operator), then the measurement dispatch (raising `ResponseError` on an
unknown basis), then `pmats = [qsp_op(phi) for phi in phiset]` and the
per-sample loop over `adat`. -/
noncomputable def ComputeQSPResponse (adat phiset : List ℝ)
    (signal_operator : String) (measurement : Option String) :
    Except RespErr QSPResponse :=
  let meas := resolveMeas signal_operator measurement
  let model := (signal_operator, meas)
  match opsOf signal_operator with
  | none => Except.error (RespErr.invalidSignalOperator signal_operator)
  | some (sigOp, qspOp) =>
    match pstateOf meas with
    | none => Except.error (RespErr.invalidMeasurement meas)
    | some pstate =>
      let pmats := phiset.map qspOp
      match adat.mapM (fun a => responseAt (sigOp a) pmats pstate) with
      | Except.error e => Except.error e
      | Except.ok pdat => Except.ok ⟨adat, pdat, model, phiset⟩

/-- Spec-side description of the per-sample unitary: the ordered product
`qsp_op(phi_0) · Π_{φ ∈ rest} (sig_op(a) · qsp_op(φ))` — one leading phase
factor, then one signal factor and one phase factor per remaining phase
(`len(phiset)` phase factors, `len(phiset) - 1` signal factors). -/
noncomputable def specU (sigOp qspOp : ℝ → Matrix (Fin 2) (Fin 2) ℂ)
    (φ0 : ℝ) (φrest : List ℝ) (a : ℝ) : Matrix (Fin 2) (Fin 2) ℂ :=
  qspOp φ0 * (φrest.map (fun φ => sigOp a * qspOp φ)).prod

/-- Spec-side description of the per-sample response value:
`p_state^T · U · p_state` with the plain transpose. -/
noncomputable def specResponse (sigOp qspOp : ℝ → Matrix (Fin 2) (Fin 2) ℂ)
    (pstate : Matrix (Fin 2) (Fin 1) ℂ) (φ0 : ℝ) (φrest : List ℝ) (a : ℝ) : ℂ :=
  (pstate.transpose * specU sigOp qspOp φ0 φrest a * pstate) 0 0

example : poly2chebyfn [0, 0, 1] ChebKind.T = [1/2, 0, 1/2] := by
  norm_num [poly2chebyfn, chebElim, chebCoefAt, reduceP, leadCoef, cfuncOf,
    chebTCoeffs, psub, List.zipWith, List.getD, List.get?]

example : chebSum (cfuncOf ChebKind.T) 3 (poly2chebyfn [1, 2, 3, 4] ChebKind.T) 0 = polyEval [1, 2, 3, 4] 3 := by
  norm_num [poly2chebyfn, chebElim, chebCoefAt, reduceP, leadCoef, cfuncOf,
    chebTCoeffs, psub, List.zipWith, List.getD, List.get?, chebSum, polyEval]

/-! ### Helper lemmas: list polynomials -/

lemma polyEval_nil (x : ℚ) : polyEval [] x = 0 := rfl

lemma polyEval_cons (a : ℚ) (p : List ℚ) (x : ℚ) :
    polyEval (a :: p) x = a + x * polyEval p x := rfl

lemma psub_length (p q : List ℚ) : (psub p q).length = max p.length q.length := by
  induction p generalizing q with
  | nil => cases q <;> simp [psub]
  | cons a p ih =>
    cases q with
    | nil => simp [psub]
    | cons b q =>
      have := ih q
      simp only [psub, List.length_cons, this]
      omega

lemma getD_nil (i : ℕ) : ([] : List ℚ).getD i 0 = 0 := rfl

lemma getD_map_neg (q : List ℚ) (i : ℕ) :
    (q.map (fun c => -c)).getD i 0 = -(q.getD i 0) := by
  induction q generalizing i with
  | nil => simp
  | cons a q ih =>
    cases i with
    | zero => simp
    | succ n => rw [List.map_cons, List.getD_cons_succ, List.getD_cons_succ, ih]

lemma psub_getD (p q : List ℚ) (i : ℕ) :
    (psub p q).getD i 0 = p.getD i 0 - q.getD i 0 := by
  induction p generalizing q i with
  | nil =>
    cases q with
    | nil => simp [psub]
    | cons b q =>
      show ((b :: q).map (fun c => -c)).getD i 0 = [].getD i 0 - (b :: q).getD i 0
      rw [getD_map_neg, getD_nil]
      ring
  | cons a p ih =>
    cases q with
    | nil => simp [psub]
    | cons b q =>
      cases i with
      | zero => simp [psub]
      | succ n =>
        show (psub p q).getD n 0 = p.getD n 0 - q.getD n 0
        exact ih q n

lemma getD_map_two_mul (L : List ℚ) (i : ℕ) :
    (L.map (fun c => 2 * c)).getD i 0 = 2 * L.getD i 0 := by
  induction L generalizing i with
  | nil => simp
  | cons a L ih =>
    cases i with
    | zero => simp
    | succ n => rw [List.map_cons, List.getD_cons_succ, List.getD_cons_succ, ih]

lemma chebT_length : ∀ n, (chebTCoeffs n).length = n + 1 := by
  intro n
  induction n using Nat.strong_induction_on with
  | _ n ih =>
    match n with
    | 0 => rfl
    | 1 => rfl
    | n + 2 =>
      have h1 := ih (n + 1) (by omega)
      have h0 := ih n (by omega)
      simp only [chebTCoeffs, psub_length, List.length_cons, List.length_map, h1, h0]
      omega

lemma chebU_length : ∀ n, (chebUCoeffs n).length = n + 1 := by
  intro n
  induction n using Nat.strong_induction_on with
  | _ n ih =>
    match n with
    | 0 => rfl
    | 1 => rfl
    | n + 2 =>
      have h1 := ih (n + 1) (by omega)
      have h0 := ih n (by omega)
      simp only [chebUCoeffs, psub_length, List.length_cons, List.length_map, h1, h0]
      omega

lemma cfuncOf_length (kind : ChebKind) (n : ℕ) : (cfuncOf kind n).length = n + 1 := by
  cases kind
  · exact chebT_length n
  · exact chebU_length n

lemma chebT_top : ∀ n, (chebTCoeffs n).getD n 0 = if n = 0 then 1 else 2 ^ (n - 1) := by
  intro n
  induction n using Nat.strong_induction_on with
  | _ n ih =>
    match n with
    | 0 => rfl
    | 1 => rfl
    | n + 2 =>
      have h1 := ih (n + 1) (by omega)
      have hlen : (chebTCoeffs n).length ≤ n + 2 := by rw [chebT_length]; omega
      rw [chebTCoeffs, psub_getD, List.getD_eq_default _ _ hlen, List.getD_cons_succ,
        getD_map_two_mul, h1]
      rw [if_neg (by omega : ¬ n + 1 = 0), if_neg (by omega : ¬ n + 2 = 0)]
      rw [show n + 2 - 1 = (n + 1 - 1) + 1 by omega, pow_succ]
      ring

lemma chebU_top : ∀ n, (chebUCoeffs n).getD n 0 = 2 ^ n := by
  intro n
  induction n using Nat.strong_induction_on with
  | _ n ih =>
    match n with
    | 0 => rfl
    | 1 => rfl
    | n + 2 =>
      have h1 := ih (n + 1) (by omega)
      have hlen : (chebUCoeffs n).length ≤ n + 2 := by rw [chebU_length]; omega
      rw [chebUCoeffs, psub_getD, List.getD_eq_default _ _ hlen, List.getD_cons_succ,
        getD_map_two_mul, h1, pow_succ]
      ring

lemma leadCoef_cfuncOf (kind : ChebKind) (n : ℕ) :
    leadCoef (cfuncOf kind n) = (cfuncOf kind n).getD n 0 := by
  rw [leadCoef, cfuncOf_length]
  norm_num

lemma leadCoef_cfuncOf_pos (kind : ChebKind) (n : ℕ) : 0 < leadCoef (cfuncOf kind n) := by
  rw [leadCoef_cfuncOf]
  cases kind
  · rw [show cfuncOf ChebKind.T n = chebTCoeffs n from rfl, chebT_top]
    split
    · norm_num
    · positivity
  · rw [show cfuncOf ChebKind.U n = chebUCoeffs n from rfl, chebU_top]
    positivity

lemma polyEval_all_zero (P : List ℚ) (x : ℚ) (h : ∀ j, P.getD j 0 = 0) :
    polyEval P x = 0 := by
  induction P with
  | nil => rfl
  | cons a P ih =>
    rw [polyEval_cons]
    have h0 : a = 0 := by
      have := h 0
      simpa using this
    have hrest : polyEval P x = 0 := by
      refine ih ?_
      intro j
      have := h (j + 1)
      simpa using this
    rw [h0, hrest]
    ring

lemma polyEval_head (P : List ℚ) (x : ℚ) (h : ∀ j, 1 ≤ j → P.getD j 0 = 0) :
    polyEval P x = P.getD 0 0 := by
  cases P with
  | nil => rfl
  | cons a P =>
    rw [polyEval_cons, List.getD_cons_zero]
    have hrest : polyEval P x = 0 := by
      refine polyEval_all_zero P x ?_
      intro j
      have := h (j + 1) (by omega)
      simpa using this
    rw [hrest]
    ring

lemma polyEval_replicate_zero (k : ℕ) (x : ℚ) :
    polyEval (List.replicate k 0) x = 0 := by
  induction k with
  | zero => rfl
  | succ n ih =>
    rw [List.replicate_succ, polyEval_cons, ih]
    ring

lemma polyEval_append_zeros (p : List ℚ) (k : ℕ) (x : ℚ) :
    polyEval (p ++ List.replicate k 0) x = polyEval p x := by
  induction p with
  | nil => simpa using polyEval_replicate_zero k x
  | cons a p ih =>
    rw [List.cons_append, polyEval_cons, polyEval_cons, ih]

lemma polyEval_zipWith_sub (c : ℚ) (P R : List ℚ) (x : ℚ) (hlen : P.length = R.length) :
    polyEval (List.zipWith (fun p t => p - c * t) P R) x =
      polyEval P x - c * polyEval R x := by
  induction P generalizing R with
  | nil =>
    cases R with
    | nil => simp [polyEval_nil]
    | cons b R => simp at hlen
  | cons a P ih =>
    cases R with
    | nil => simp at hlen
    | cons b R =>
      rw [List.zipWith_cons_cons, polyEval_cons, polyEval_cons, polyEval_cons,
        ih R (by simpa using hlen)]
      ring

lemma zipWith_sub_getD (c : ℚ) (P R : List ℚ) (j : ℕ) (hlen : P.length = R.length) :
    (List.zipWith (fun p t => p - c * t) P R).getD j 0 = P.getD j 0 - c * R.getD j 0 := by
  induction P generalizing R j with
  | nil =>
    cases R with
    | nil => simp [getD_nil]
    | cons b R => simp at hlen
  | cons a P ih =>
    cases R with
    | nil => simp at hlen
    | cons b R =>
      cases j with
      | zero => simp
      | succ n =>
        rw [List.zipWith_cons_cons, List.getD_cons_succ, List.getD_cons_succ,
          List.getD_cons_succ, ih R n (by simpa using hlen)]

lemma getD_append_replicate_zero (p : List ℚ) (k j : ℕ) :
    (p ++ List.replicate k 0).getD j 0 = p.getD j 0 := by
  induction p generalizing j with
  | nil =>
    rw [List.nil_append, getD_nil]
    rcases Nat.lt_or_ge j k with h | h
    · rw [List.getD_eq_getElem _ _ (by simpa using h), List.getElem_replicate]
    · rw [List.getD_eq_default _ _ (by simpa using h)]
  | cons a p ih =>
    cases j with
    | zero => simp
    | succ n => rw [List.cons_append, List.getD_cons_succ, List.getD_cons_succ, ih]

lemma chebSum_append (cf : ℕ → List ℚ) (x : ℚ) (A B : List ℚ) (k : ℕ) :
    chebSum cf x (A ++ B) k = chebSum cf x A k + chebSum cf x B (k + A.length) := by
  induction A generalizing k with
  | nil => simp [chebSum]
  | cons a A ih =>
    rw [List.cons_append]
    rw [show chebSum cf x (a :: (A ++ B)) k =
      a * polyEval (cf k) x + chebSum cf x (A ++ B) (k + 1) from rfl]
    rw [show chebSum cf x (a :: A) k =
      a * polyEval (cf k) x + chebSum cf x A (k + 1) from rfl]
    rw [ih (k + 1)]
    rw [List.length_cons]
    ring_nf

lemma leadCoef_eq_getD (cf : ℕ → List ℚ) (cflen : ∀ k, (cf k).length = k + 1) (n : ℕ) :
    leadCoef (cf n) = (cf n).getD n 0 := by
  rw [leadCoef, cflen]
  norm_num

lemma chebElim_correct (cf : ℕ → List ℚ) (cflen : ∀ k, (cf k).length = k + 1)
    (cflead : ∀ k, leadCoef (cf k) ≠ 0) (deg : ℕ) :
    ∀ l, l ≤ deg → ∀ P : List ℚ, P.length = deg + 1 →
      (∀ j, l < j → P.getD j 0 = 0) →
      (chebElim cf deg l P).length = l + 1 ∧
      ∀ x, chebSum cf x (chebElim cf deg l P).reverse 0 = polyEval P x := by
  intro l
  induction l with
  | zero =>
    intro _ P hP hz
    refine ⟨rfl, ?_⟩
    intro x
    rw [show chebElim cf deg 0 P = [chebCoefAt cf P 0] from rfl]
    rw [show ([chebCoefAt cf P 0] : List ℚ).reverse = [chebCoefAt cf P 0] from rfl]
    rw [show chebSum cf x [chebCoefAt cf P 0] 0 =
      chebCoefAt cf P 0 * polyEval (cf 0) x + 0 from rfl]
    obtain ⟨a, ha⟩ := List.length_eq_one.mp (cflen 0)
    have hev0 : polyEval (cf 0) x = leadCoef (cf 0) := by
      rw [ha, leadCoef]
      rw [show ([a] : List ℚ).length - 1 = 0 from rfl, List.getD_cons_zero,
        polyEval_cons, polyEval_nil]
      ring
    rw [hev0, chebCoefAt, div_mul_cancel₀ _ (cflead 0),
      polyEval_head P x (fun j hj => hz j (by omega))]
    ring
  | succ l ih =>
    intro hl P hP hz
    have hl' : l ≤ deg := by omega
    have hRlen : (cf (l + 1) ++ List.replicate (deg - (l + 1)) 0).length = deg + 1 := by
      rw [List.length_append, List.length_replicate, cflen]
      omega
    have hPRlen : P.length = (cf (l + 1) ++ List.replicate (deg - (l + 1)) 0).length := by
      rw [hP, hRlen]
    have hPlen' : (reduceP cf deg P (l + 1)).length = deg + 1 := by
      rw [reduceP, List.length_zipWith, hP, hRlen]
      omega
    have htop : (cf (l + 1)).getD (l + 1) 0 = leadCoef (cf (l + 1)) :=
      (leadCoef_eq_getD cf cflen (l + 1)).symm
    have hz' : ∀ j, l < j → (reduceP cf deg P (l + 1)).getD j 0 = 0 := by
      intro j hj
      rw [reduceP, zipWith_sub_getD _ _ _ _ hPRlen, getD_append_replicate_zero]
      rcases Nat.lt_or_ge (l + 1) j with h | h
      · rw [hz j h, List.getD_eq_default _ _ (by rw [cflen]; omega)]
        ring
      · have hj1 : j = l + 1 := by omega
        subst hj1
        rw [htop, chebCoefAt, div_mul_cancel₀ _ (cflead (l + 1)), sub_self]
    obtain ⟨hlen', hsum'⟩ := ih hl' (reduceP cf deg P (l + 1)) hPlen' hz'
    have hcons : chebElim cf deg (l + 1) P =
        chebCoefAt cf P (l + 1) :: chebElim cf deg l (reduceP cf deg P (l + 1)) := rfl
    constructor
    · rw [hcons, List.length_cons, hlen']
    · intro x
      rw [hcons, List.reverse_cons, chebSum_append, hsum' x,
        List.length_reverse, hlen']
      simp only [Nat.zero_add]
      rw [show chebSum cf x [chebCoefAt cf P (l + 1)] (l + 1) =
        chebCoefAt cf P (l + 1) * polyEval (cf (l + 1)) x + 0 from rfl]
      have hev : polyEval (reduceP cf deg P (l + 1)) x =
          polyEval P x - chebCoefAt cf P (l + 1) * polyEval (cf (l + 1)) x := by
        rw [reduceP, polyEval_zipWith_sub _ _ _ _ hPRlen, polyEval_append_zeros]
      rw [hev]
      ring

lemma leadCoef_cfuncOf_ne_zero (kind : ChebKind) (n : ℕ) :
    leadCoef (cfuncOf kind n) ≠ 0 :=
  ne_of_gt (leadCoef_cfuncOf_pos kind n)

/-- Claim C1: for every polynomial given as a power-basis coefficient list
(index = power, low-to-high) and kind tag `T` or `U`, `poly2chebyfn` returns
a coefficient list `c_0..c_deg` of the same length, ordered low-degree-first,
whose Chebyshev reconstruction `Σ_l c_l · ChebKind_l(x)` equals the input
polynomial at every point (round-trip law). -/
theorem poly2chebyfn_roundtrip (kind : ChebKind) (pcoefs : List ℚ) (x : ℚ) :
    (poly2chebyfn pcoefs kind).length = pcoefs.length ∧
    chebSum (cfuncOf kind) x (poly2chebyfn pcoefs kind) 0 = polyEval pcoefs x := by
  cases pcoefs with
  | nil => exact ⟨rfl, rfl⟩
  | cons a ps =>
    have hdeg : (a :: ps).length = ((a :: ps).length - 1) + 1 := by
      rw [List.length_cons]
      omega
    have hz : ∀ j, (a :: ps).length - 1 < j → (a :: ps).getD j 0 = 0 := by
      intro j hj
      exact List.getD_eq_default _ _ (by omega)
    obtain ⟨hlen, hsum⟩ := chebElim_correct (cfuncOf kind) (cfuncOf_length kind)
      (leadCoef_cfuncOf_ne_zero kind) ((a :: ps).length - 1) ((a :: ps).length - 1)
      (le_refl _) (a :: ps) hdeg hz
    constructor
    · rw [show poly2chebyfn (a :: ps) kind =
        (chebElim (cfuncOf kind) ((a :: ps).length - 1) ((a :: ps).length - 1)
          (a :: ps)).reverse from rfl]
      rw [List.length_reverse, hlen]
      omega
    · exact hsum x

/-- Claim C7: the divisor used at every elimination step of the Chebyshev
conversion — the leading (top-order) coefficient
`poly_term[len(poly_term)-1]` of the degree-`l` Chebyshev polynomial of kind
`T` or `U` — is strictly positive (it is `1` or a power of `2`), so the
degenerate zero-leading-coefficient condition is unreachable and
`poly2chebyfn` never proceeds with a zero divisor. -/
theorem poly2chebyfn_divisor_pos (kind : ChebKind) (l : ℕ) :
    0 < leadCoef (cfuncOf kind l) :=
  leadCoef_cfuncOf_pos kind l

/-- Claim C5: `erf_step.generate` is a pure lookup: `n = 7` returns exactly
the literal `erf(1.5x)` phase table, `n = 23` exactly the literal `erf(2x)`
table (no drift: the results are definitionally the literal lists), and
every other `n` fails with the Unsupported-Table-Lookup error, with no
interpolation or extension. -/
theorem erf_step_generate_lookup :
    (erf_step.generate 7 = Except.ok
      [1.58019, 0.00172821, 0.251897, -0.834542, -0.834542, 0.251897,
       0.00172821, 0.00939863]) ∧
    (erf_step.generate 23 = Except.ok
      [1.5708, 2.87883e-8, 5.83909e-7, 1.84144e-6, 0.0000209995,
       -0.0000120126, 0.000564903, -0.0022922, 0.0150024,
       -0.064666, 0.263754, -0.926685, -0.926912, 0.263756,
       -0.0645576, 0.014932, -0.00225885, 0.000553565,
       -8.29284e-6, 0.0000200459, 2.09476e-6, 5.3026e-7,
       4.38578e-8, 3.66401e-9]) ∧
    (∀ n : ℤ, n ≠ 7 → n ≠ 23 →
      erf_step.generate n = Except.error PhasesError.unsupportedTableLookup) := by
  refine ⟨rfl, rfl, ?_⟩
  intro n h7 h23
  rw [erf_step.generate, if_neg h7, if_neg h23]

/-- Witness for C5 at the concrete unsupported input `n = 5`. -/
theorem erf_step_generate_lookup_witness :
    erf_step.generate 5 = Except.error PhasesError.unsupportedTableLookup :=
  erf_step_generate_lookup.2.2 5 (by decide) (by decide)

/-- Claim C9: `SqrtSequence.generate` and `ExtractionSequence.generate` are
extensionally equal: both thread the degree `n` to the same external
polynomial-extraction call and its result, with poly type `"Q"` and
measurement `"z"`, to the same external phase-solving call. -/
theorem sqrt_generate_eq_extraction_generate (Q Φ : Type) (polyExtraction : ℕ → Q)
    (qspPhases : Q → String → String → Φ) (n : ℕ) :
    SqrtSequence.generate polyExtraction qspPhases n =
      ExtractionSequence.generate polyExtraction qspPhases n := rfl

/-- Counterexample to claim C8 as stated: a call with `return_alpha`
requested does not store the `avec` computed by that call — starting from
the empty diagnostic state and `d = 1`, after the call the stored `avec` is
still the empty list while the `avec` computed by the call has length `1`. -/
theorem fpsearch_return_alpha_skips_state :
    ((FPSearch.generate ⟨[], []⟩ 1 none none true).fst.avec.length = 0) ∧
    ((FPSearch.avec 1 (FPSearch.gammaOf 1 none none)).length = 1) := by
  constructor
  · rfl
  · simp [FPSearch.avec]

/-- Claim C8 (amended): a call to `FPSearch.generate` without `return_alpha`
overwrites (never appends to) the instance's diagnostic fields with the
`avec` and `bvec` computed by that call, regardless of the prior state;
a call with `return_alpha` requested returns `avec` before the assignments
and leaves the stored fields unchanged. -/
theorem fpsearch_state_retention (st : FPState) (d : ℕ) (delta? gamma? : Option ℝ) :
    ((FPSearch.generate st d delta? gamma? false).fst =
      ⟨FPSearch.avec d (FPSearch.gammaOf d delta? gamma?),
       FPSearch.bvec d (FPSearch.gammaOf d delta? gamma?)⟩) ∧
    ((FPSearch.generate st d delta? gamma? true).fst = st) :=
  ⟨rfl, rfl⟩

/-! ### Helper lemmas: the fixed-point-search interleaving -/

lemma flatMap_pairs_length (f g : ℕ → ℝ) (d : ℕ) :
    ((List.range d).flatMap (fun k => [f k, g k])).length = 2 * d := by
  induction d with
  | zero => rfl
  | succ n ih =>
    rw [List.range_succ, List.flatMap_append, List.length_append, ih]
    simp
    omega

lemma flatMap_pairs_getD (f g : ℕ → ℝ) (d k : ℕ) (hk : k < d) :
    ((List.range d).flatMap (fun j => [f j, g j])).getD (2 * k) 0 = f k ∧
    ((List.range d).flatMap (fun j => [f j, g j])).getD (2 * k + 1) 0 = g k := by
  induction d with
  | zero => omega
  | succ n ih =>
    rw [List.range_succ, List.flatMap_append]
    rcases Nat.lt_or_ge k n with h | h
    · have hlen : ((List.range n).flatMap (fun j => [f j, g j])).length = 2 * n :=
        flatMap_pairs_length f g n
      constructor
      · rw [List.getD_append _ _ _ _ (by omega)]
        exact (ih h).1
      · rw [List.getD_append _ _ _ _ (by omega)]
        exact (ih h).2
    · have hk' : k = n := by omega
      subst hk'
      have hlen : ((List.range k).flatMap (fun j => [f j, g j])).length = 2 * k :=
        flatMap_pairs_length f g k
      constructor
      · rw [List.getD_append_right _ _ _ _ (by omega)]
        rw [hlen]
        rw [show 2 * k - 2 * k = 0 by omega]
        simp
      · rw [List.getD_append_right _ _ _ _ (by omega)]
        rw [hlen]
        rw [show 2 * k + 1 - 2 * k = 1 by omega]
        simp

lemma avec_length (d : ℕ) (γ : ℝ) : (FPSearch.avec d γ).length = d := by
  rw [FPSearch.avec, List.length_map, List.length_range]

lemma bvec_length (d : ℕ) (γ : ℝ) : (FPSearch.bvec d γ).length = d := by
  rw [FPSearch.bvec, List.length_map, List.length_reverse, avec_length]

lemma bvec_getD (d : ℕ) (γ : ℝ) (i : ℕ) (hi : i < d) :
    (FPSearch.bvec d γ).getD i 0 = -((FPSearch.avec d γ).getD (d - 1 - i) 0) := by
  have hav : (FPSearch.avec d γ).length = d := avec_length d γ
  have h1 : i < ((FPSearch.avec d γ).reverse.map (fun a => -a)).length := by
    rw [List.length_map, List.length_reverse, hav]
    omega
  have h2 : i < (FPSearch.avec d γ).reverse.length := by
    rw [List.length_reverse, hav]
    omega
  have h3 : d - 1 - i < (FPSearch.avec d γ).length := by
    rw [hav]
    omega
  rw [FPSearch.bvec, List.getD_eq_getElem _ _ h1, List.getElem_map,
    List.getElem_reverse, List.getD_eq_getElem _ _ h3]
  congr 2
  rw [hav]

/-- Claim C3: for every positive `d`, `FPSearch.generate` without
`return_alpha` returns a phase vector of length exactly `2d`; the internal
vectors satisfy `bvec[i] = -avec[d-1-i]` for every index `i < d`; and the
output is assembled by the interleaving `phi[2k] = -avec[d-k-1]/2`,
`phi[2k+1] = bvec[d-k-1]/2` for `k = 0..d-1`. -/
theorem fpsearch_generate_interleaving (st : FPState) (d : ℕ)
    (delta? gamma? : Option ℝ) (_hd : 0 < d) :
    ((FPSearch.generate st d delta? gamma? false).snd.length = 2 * d) ∧
    (∀ i, i < d →
      (FPSearch.bvec d (FPSearch.gammaOf d delta? gamma?)).getD i 0 =
        -((FPSearch.avec d (FPSearch.gammaOf d delta? gamma?)).getD (d - 1 - i) 0)) ∧
    (∀ k, k < d →
      (FPSearch.generate st d delta? gamma? false).snd.getD (2 * k) 0 =
        (-((FPSearch.avec d (FPSearch.gammaOf d delta? gamma?)).getD (d - k - 1) 0)) / 2 ∧
      (FPSearch.generate st d delta? gamma? false).snd.getD (2 * k + 1) 0 =
        (FPSearch.bvec d (FPSearch.gammaOf d delta? gamma?)).getD (d - k - 1) 0 / 2) := by
  have hgen : (FPSearch.generate st d delta? gamma? false).snd =
      (List.range d).flatMap (fun k =>
        [(-(((FPSearch.avec d (FPSearch.gammaOf d delta? gamma?))).getD (d - k - 1) 0)) / 2,
         (FPSearch.bvec d (FPSearch.gammaOf d delta? gamma?)).getD (d - k - 1) 0 / 2]) := rfl
  refine ⟨?_, ?_, ?_⟩
  · rw [hgen, flatMap_pairs_length]
  · intro i hi
    exact bvec_getD d _ i hi
  · intro k hk
    rw [hgen]
    exact flatMap_pairs_getD _ _ d k hk

/-- Witness for C3 at the concrete input `d = 2` (fresh state, default
`delta`). -/
theorem fpsearch_generate_interleaving_witness :
    ((FPSearch.generate ⟨[], []⟩ 2 none none false).snd.length = 2 * 2) ∧
    ((FPSearch.bvec 2 (FPSearch.gammaOf 2 none none)).getD 0 0 =
      -((FPSearch.avec 2 (FPSearch.gammaOf 2 none none)).getD (2 - 1 - 0) 0)) ∧
    ((FPSearch.generate ⟨[], []⟩ 2 none none false).snd.getD (2 * 1) 0 =
      (-((FPSearch.avec 2 (FPSearch.gammaOf 2 none none)).getD (2 - 1 - 1) 0)) / 2) :=
  ⟨(fpsearch_generate_interleaving ⟨[], []⟩ 2 none none (by decide)).1,
   (fpsearch_generate_interleaving ⟨[], []⟩ 2 none none (by decide)).2.1 0 (by decide),
   ((fpsearch_generate_interleaving ⟨[], []⟩ 2 none none (by decide)).2.2 1 (by decide)).1⟩

/-- Claim C4: when `gamma` is not supplied, `FPSearch.generate` derives it as
`1 / cosh((1/(2d+1)) * arccosh(1/delta))`, with `delta` defaulting to `0.1`
when neither is supplied; for `k = 1..d` the angles are
`avec_k = 2*atan2(1, tan(2*pi*k/(2d+1)) * sqrt(1-gamma^2))`; and `bvec` is
`avec` reversed and negated. -/
theorem fpsearch_gamma_avec_formulas (d : ℕ) (δ γ : ℝ) (k : ℕ) :
    (FPSearch.gammaOf d (some δ) none =
      1 / Real.cosh ((1 / (2 * (d : ℝ) + 1)) * arccosh (1 / δ))) ∧
    (FPSearch.gammaOf d none none =
      1 / Real.cosh ((1 / (2 * (d : ℝ) + 1)) * arccosh (1 / 0.1))) ∧
    (1 ≤ k → k ≤ d →
      (FPSearch.avec d γ).getD (k - 1) 0 =
        2 * atan2 1 (Real.tan (2 * Real.pi * (k : ℝ) / (2 * (d : ℝ) + 1)) *
          Real.sqrt (1 - γ ^ 2))) ∧
    (FPSearch.bvec d γ = (FPSearch.avec d γ).reverse.map (fun a => -a)) := by
  refine ⟨rfl, rfl, ?_, rfl⟩
  intro h1 hd
  have hlt : k - 1 < (FPSearch.avec d γ).length := by
    rw [avec_length]
    omega
  rw [List.getD_eq_getElem _ _ hlt]
  simp only [FPSearch.avec, List.getElem_map, List.getElem_range]
  have hcast : ((k - 1 : ℕ) : ℝ) + 1 = (k : ℝ) := by
    have : ((k - 1 : ℕ) : ℝ) = (k : ℝ) - 1 := by
      push_cast [Nat.cast_sub h1]
      ring
    rw [this]
    ring
  rw [hcast]

/-- Witness for C4 at the concrete input `d = 2`, `gamma = 1/2`, `k = 1`. -/
theorem fpsearch_gamma_avec_formulas_witness :
    (FPSearch.avec 2 (1 / 2)).getD (1 - 1) 0 =
      2 * atan2 1 (Real.tan (2 * Real.pi * ((1 : ℕ) : ℝ) / (2 * ((2 : ℕ) : ℝ) + 1)) *
        Real.sqrt (1 - (1 / 2 : ℝ) ^ 2)) :=
  (fpsearch_gamma_avec_formulas 2 0 (1 / 2) 1).2.2.1 (by decide) (by decide)

/-! ### Helper lemmas: the response engine -/

lemma foldl_mul_prod (W p0 : Matrix (Fin 2) (Fin 2) ℂ)
    (l : List (Matrix (Fin 2) (Fin 2) ℂ)) :
    l.foldl (fun U pm => U * W * pm) p0 = p0 * (l.map (fun pm => W * pm)).prod := by
  induction l generalizing p0 with
  | nil => simp
  | cons x xs ih =>
    rw [List.foldl_cons, ih, List.map_cons, List.prod_cons, mul_assoc p0 W x, mul_assoc]

lemma exceptMapM_ok {α β : Type} (f : α → β) (l : List α) :
    l.mapM (fun a => (Except.ok (f a) : Except RespErr β)) = Except.ok (l.map f) := by
  induction l with
  | nil => rfl
  | cons x xs ih =>
    rw [List.mapM_cons, ih]
    rfl

lemma exceptMapM_error {α β : Type} (err : RespErr) (g : α → Except RespErr β)
    (a : α) (l : List α) (h : g a = Except.error err) :
    (a :: l).mapM g = Except.error err := by
  rw [List.mapM_cons, h]
  rfl

/-- Claim C2: for every non-empty phase vector, every sample list and every
valid `(signal_operator, measurement)` pair (after defaulting),
`ComputeQSPResponse` returns `pdat = adat.map f` — same length, index
`i` of `pdat` computed from index `i` of `adat` — where `f a` is
`p_state^T · U · p_state` (plain transpose, see `specResponse`) and `U` is
the ordered product `qsp_op(phi_0) · Π (sig_op(a) · qsp_op(phi_j))`:
`len(phiset)` phase factors and `len(phiset) - 1` interleaved signal
factors (see `specU`). -/
theorem compute_qsp_response_product (adat : List ℝ) (φ0 : ℝ) (φrest : List ℝ)
    (sig : String) (meas : Option String)
    (so qo : ℝ → Matrix (Fin 2) (Fin 2) ℂ) (ps : Matrix (Fin 2) (Fin 1) ℂ)
    (hops : opsOf sig = some (so, qo))
    (hps : pstateOf (resolveMeas sig meas) = some ps) :
    ComputeQSPResponse adat (φ0 :: φrest) sig meas =
      Except.ok ⟨adat, adat.map (specResponse so qo ps φ0 φrest),
        (sig, resolveMeas sig meas), φ0 :: φrest⟩ := by
  have hresp : (fun a => responseAt (so a) ((φ0 :: φrest).map qo) ps) =
      (fun a => Except.ok (specResponse so qo ps φ0 φrest a)) := by
    funext a
    rw [List.map_cons]
    rw [show responseAt (so a) (qo φ0 :: φrest.map qo) ps =
      Except.ok ((Matrix.transpose ps *
        ((φrest.map qo).foldl (fun U pm => U * so a * pm) (qo φ0)) * ps) 0 0) from rfl]
    rw [foldl_mul_prod, List.map_map]
    rfl
  simp only [ComputeQSPResponse, hops, hps]
  rw [hresp, exceptMapM_ok]

/-- Witness for C2 at the concrete configuration `Wx` with defaulted
measurement, `phiset = [0]`, `adat = [0]`. -/
theorem compute_qsp_response_product_witness :
    ComputeQSPResponse [0] [0] "Wx" none =
      Except.ok ⟨[0], [specResponse sigOpWx qspOpWx pstateX 0 [] 0],
        ("Wx", some "x"), [0]⟩ :=
  compute_qsp_response_product [0] 0 [] "Wx" none sigOpWx qspOpWx pstateX rfl rfl

/-- Claim C6: `ComputeQSPResponse` with a `signal_operator` outside
`{Wx, Wz}` fails immediately with the Invalid-Configuration
(`ResponseError`) for the signal operator, with no partial computation; with
a valid signal operator but a (resolved) measurement outside `{x, z}` it
fails likewise for the measurement; and a `None` measurement is accepted and
defaulted to the basis native to the signal operator (`x` for `Wx`, `z` for
`Wz`) instead of failing. -/
theorem compute_qsp_response_invalid_config (adat phiset : List ℝ)
    (sig : String) (meas : Option String) :
    (sig ≠ "Wx" → sig ≠ "Wz" →
      ComputeQSPResponse adat phiset sig meas =
        Except.error (RespErr.invalidSignalOperator sig)) ∧
    ((sig = "Wx" ∨ sig = "Wz") →
      resolveMeas sig meas ≠ some "x" → resolveMeas sig meas ≠ some "z" →
      ComputeQSPResponse adat phiset sig meas =
        Except.error (RespErr.invalidMeasurement (resolveMeas sig meas))) ∧
    (ComputeQSPResponse adat phiset "Wx" none =
      ComputeQSPResponse adat phiset "Wx" (some "x")) ∧
    (ComputeQSPResponse adat phiset "Wz" none =
      ComputeQSPResponse adat phiset "Wz" (some "z")) := by
  refine ⟨?_, ?_, rfl, rfl⟩
  · intro h1 h2
    have hops : opsOf sig = none := by
      rw [opsOf, if_neg h1, if_neg h2]
    simp only [ComputeQSPResponse, hops]
  · intro hsig hm1 hm2
    have hps : pstateOf (resolveMeas sig meas) = none := by
      rw [pstateOf, if_neg hm1, if_neg hm2]
    rcases hsig with h | h
    · subst h
      have hops : opsOf "Wx" = some (sigOpWx, qspOpWx) := rfl
      simp only [ComputeQSPResponse, hps, hops]
    · subst h
      have hops : opsOf "Wz" = some (sigOpWz, qspOpWz) := rfl
      simp only [ComputeQSPResponse, hps, hops]

/-- Witness for C6 at the concrete misuses `signal_operator = "bogus"` and
`("Wx", measurement = "y")`. -/
theorem compute_qsp_response_invalid_config_witness :
    (ComputeQSPResponse [] [] "bogus" none =
      Except.error (RespErr.invalidSignalOperator "bogus")) ∧
    (ComputeQSPResponse [] [] "Wx" (some "y") =
      Except.error (RespErr.invalidMeasurement (some "y"))) :=
  ⟨(compute_qsp_response_invalid_config [] [] "bogus" none).1 (by decide) (by decide),
   (compute_qsp_response_invalid_config [] [] "Wx" (some "y")).2.1 (Or.inl rfl)
     (by decide) (by decide)⟩

/-- Claim C10: for every valid configuration, `ComputeQSPResponse` with an
empty `phiset` and a non-empty `adat` fails with the index error raised by
`pmats[0]` on the empty phase-factor list (it never returns a dataset),
whereas with an empty `adat` it returns a complete dataset with empty `pdat`
for every `phiset`, including the empty one. -/
theorem compute_qsp_response_empty_phiset (a : ℝ) (adat' phiset : List ℝ)
    (sig : String) (meas : Option String)
    (so qo : ℝ → Matrix (Fin 2) (Fin 2) ℂ) (ps : Matrix (Fin 2) (Fin 1) ℂ)
    (hops : opsOf sig = some (so, qo))
    (hps : pstateOf (resolveMeas sig meas) = some ps) :
    (ComputeQSPResponse (a :: adat') [] sig meas =
      Except.error RespErr.indexError) ∧
    (ComputeQSPResponse [] phiset sig meas =
      Except.ok ⟨[], [], (sig, resolveMeas sig meas), phiset⟩) := by
  constructor
  · simp only [ComputeQSPResponse, hops, hps, List.map_nil]
    rw [exceptMapM_error RespErr.indexError _ a adat' rfl]
  · simp only [ComputeQSPResponse, hops, hps]
    rw [show ([] : List ℝ).mapM (fun x => responseAt (so x) (phiset.map qo) ps) =
      Except.ok [] from rfl]

/-- Witness for C10 at the concrete configuration `Wx` with defaulted
measurement: `adat = [0]` against the empty `phiset`, and the empty `adat`
against `phiset = [1]`. -/
theorem compute_qsp_response_empty_phiset_witness :
    (ComputeQSPResponse [0] [] "Wx" none = Except.error RespErr.indexError) ∧
    (ComputeQSPResponse [] [1] "Wx" none =
      Except.ok ⟨[], [], ("Wx", some "x"), [1]⟩) :=
  ⟨(compute_qsp_response_empty_phiset 0 [] [1] "Wx" none sigOpWx qspOpWx pstateX
      rfl rfl).1,
   (compute_qsp_response_empty_phiset 0 [] [1] "Wx" none sigOpWx qspOpWx pstateX
      rfl rfl).2⟩
